import Mathlib

/-!
Verification development for the sintia chat bot's cross-transport dispatch
core (sintia/sintia.py and sintia/modules/user_votes.py).

The Python source is shallowly embedded below: pure fragments become Lean
functions, the rate limiter's process-wide mutable cache becomes explicit
state passing, message text becomes `List Char`, and fallible paths
(Python exceptions) become `Except String`.
-/

namespace Sintia

/-! ## Rate limiter (Sintia.get_rate_limits / record_action / is_rate_limited)

The Python code memoizes `get_rate_limits(action, *sections)` with an
unbounded lru_cache, so each distinct `(action, sections)` tuple owns one
mutable dict mapping `user_id` to the last-action `datetime`.  We model the
whole cache as a function from the composite key to a per-user partial map,
time as `Int` seconds, and the `datetime.now()` calls as explicit `now`
arguments.  Scope elements are `Union[str, int]` in the source. -/

/-- Scope tuple element, `Union[str, int]` in the source. -/
abbrev ScopeItem := Sum String Int

/-- A scope tuple (the `*sections` varargs). -/
abbrev Scope := List ScopeItem

/-- One memoized rate-limit dict: user id to last-action timestamp. -/
abbrev RateLimits := Int → Option Int

/-- The lru_cache of `get_rate_limits`: composite key to its dict. -/
abbrev RLState := String × Scope → RateLimits

/-- The state before any `record_action`: every memoized dict is empty. -/
def emptyRL : RLState := fun _ => fun _ => none

/-- Embedding of `Sintia.record_action`: writes `now` into the dict cached
for `(action, *sections)`, overwriting any previous entry for the user. -/
def record_action (st : RLState) (now : Int) (user_id : Int) (action : String)
    (scope : Scope) : RLState :=
  fun key =>
    if key = (action, scope) then
      fun u => if u = user_id then some now else st (action, scope) u
    else st key

/-- Rate-limit durations from the `ratelimits` config section.
`SectionProxy.getint` returns `None` for a missing option, modelled as
`none`; a configured duration in seconds is `some d`. -/
abbrev RLConfig := String → Option Int

/-- Embedding of `Sintia.is_rate_limited`.  When the user has no entry the
code returns `False` before touching the config.  Otherwise it builds
`timedelta(seconds=getint(action))`: with no configured duration `getint`
yields `None` and `timedelta(seconds=None)` raises a `TypeError`, modelled
as `Except.error`.  With a duration `d` it returns `entry + d > now`. -/
def is_rate_limited (cfg : RLConfig) (st : RLState) (now : Int) (user_id : Int)
    (action : String) (scope : Scope) : Except String Bool :=
  match st (action, scope) user_id with
  | none => .ok false
  | some ts =>
    match cfg action with
    | none => .error "TypeError: timedelta seconds component is NoneType"
    | some d => .ok (decide (ts + d > now))

/-- One recorded action, for reasoning about traces of `record_action`. -/
structure RecOp where
  user : Int
  time : Int
  action : String
  scope : Scope

/-- Applies a list of `record_action` calls in order. -/
def applyRecs (st : RLState) : List RecOp → RLState
  | [] => st
  | op :: rest => applyRecs (record_action st op.time op.user op.action op.scope) rest

/-! ## GenUser (class GenUser)

`GenUser` defines no `__eq__` or `__hash__` (the source carries the comment
"XXX: implement equality some day"), so CPython falls back to
`object.__eq__` (object identity) and the identity-derived default
`object.__hash__`.  We model the allocation identity as an explicit
`objId` stamped at construction; Python `==` compares only `objId`. -/

/-- The fields a Discord user object contributes to a `GenUser`. -/
structure DiscordUserR where
  id : Int
  display_name : String
  bot : Bool
  mention : String

/-- Embedding of `GenUser`: the four declared fields, plus the CPython
object identity of the freshly constructed wrapper. -/
structure GenUser where
  objId : Nat
  id : Int
  display_name : String
  bot : Bool
  mention : String

/-- The `discord_user` branch of `GenUser.__init__`. -/
def GenUser.fromDiscord (objId : Nat) (u : DiscordUserR) : GenUser :=
  ⟨objId, u.id, u.display_name, u.bot, u.mention⟩

/-- The `irc_user` branch of `GenUser.__init__`; `hashFn` models Python's
`hash` on the nickname string. -/
def GenUser.fromIrc (objId : Nat) (hashFn : String → Int) (nick : String) : GenUser :=
  ⟨objId, hashFn nick, nick, false, nick⟩

/-- Python `==` on two `GenUser` values: `GenUser` defines no `__eq__`, so
this is `object.__eq__`, i.e. identity comparison. -/
def genUserPyEq (a b : GenUser) : Bool := a.objId == b.objId

/-- Python `hash` of a `GenUser`: no `__hash__` is defined, so CPython
derives it from the object identity. -/
def genUserPyHash (g : GenUser) : Nat := g.objId

/-- A concrete Discord user used to evaluate the `GenUser` claims. -/
def du42 : DiscordUserR := ⟨42, "alice", false, "<@42>"⟩

/-! ## Command registry and dispatch (class CommandProcessor)

The registry is built once by the `@command_handler(...)` decorators in
class-body order, each trigger prefixed with `'!'`.  Dispatch partitions
the (cleaned) content on the first `' '` and looks the first part up in
the dict; a miss does nothing, a hit invokes the handler with the
stripped remainder. -/

/-- The handler functions registered on `Sintia.command_handler`. -/
inductive Handler where
  | read_quote | find_quote | last_quote | best_quote | quote_info
  | add_quote | upvote_quote | downvote_quote
  | google_search | google_image_search | google_gif_search
  | youtube_search | wikipedia_search | urbandictionary_search
  | countdown | greet | show_user_vote_score | show_user_emoji_vote_score
  | show_user_last_spoke | global_time | stock | metar | roll | convert
deriving DecidableEq

/-- The `commands` dict of the `CommandProcessor`, as populated by the
decorators in source order with the configured prefix `'!'`. -/
def commands : List (String × Handler) := [
  ("!q", .read_quote), ("!fq", .find_quote), ("!lq", .last_quote),
  ("!bq", .best_quote), ("!iq", .quote_info), ("!aq", .add_quote),
  ("!+q", .upvote_quote), ("!-q", .downvote_quote), ("!g", .google_search),
  ("!gi", .google_image_search), ("!gif", .google_gif_search),
  ("!yt", .youtube_search), ("!w", .wikipedia_search),
  ("!ud", .urbandictionary_search), ("!countdown", .countdown),
  ("!hello", .greet), ("!score", .show_user_vote_score),
  ("!emoji", .show_user_emoji_vote_score),
  ("!lastspoke", .show_user_last_spoke), ("!time", .global_time),
  ("!stock", .stock), ("!stonk", .stock), ("!stonks", .stock),
  ("!metar", .metar), ("!roll", .roll), ("!conv", .convert),
  ("!convert", .convert)]

/-- Embedding of `str.partition(' ')` projected to (head, tail): the text
before the first space character and the text after it; with no space the
whole string is the head and the tail is empty. -/
def pyPartitionSpace : List Char → List Char × List Char
  | [] => ([], [])
  | c :: cs =>
    if c = ' ' then ([], cs)
    else
      let p := pyPartitionSpace cs
      (c :: p.1, p.2)

/-- Python `str.isspace` membership for the characters `str.strip()`
removes. -/
def pyIsSpace (c : Char) : Bool :=
  c = ' ' || c = '\t' || c = '\n' || c = '\r' || c = Char.ofNat 11 || c = Char.ofNat 12

/-- Embedding of `str.strip()`. -/
def pyStrip (s : List Char) : List Char :=
  ((s.dropWhile pyIsSpace).reverse.dropWhile pyIsSpace).reverse

/-- Embedding of `CommandProcessor.process_discord_message` (and the
identical trigger logic of `process_irc_message`): partition the content on
the first space, look the trigger up, and return which handler runs with
its stripped argument, or `none` when no handler is invoked. -/
def process_discord_message (content : List Char) : Option (Handler × List Char) :=
  match commands.find? (fun q => q.1.data == (pyPartitionSpace content).1) with
  | some q => some (q.2, pyStrip (pyPartitionSpace content).2)
  | none => none

/-- Modelled from the spec claim's wording, for refinement comparison only:
a dispatcher that splits the content on the first whitespace character
(rather than the first `' '`). -/
def specSplitWhitespace : List Char → List Char × List Char
  | [] => ([], [])
  | c :: cs =>
    if pyIsSpace c then ([], cs)
    else
      let p := specSplitWhitespace cs
      (c :: p.1, p.2)

/-- Modelled from the spec claim's wording, for refinement comparison only:
dispatch after whitespace splitting. -/
def specDispatch (content : List Char) : Option (Handler × List Char) :=
  match commands.find? (fun q => q.1.data == (specSplitWhitespace content).1) with
  | some q => some (q.2, pyStrip (specSplitWhitespace content).2)
  | none => none

/-! ## Vote aggregation (Sintia.vote_handler, user_votes.add_votes)

The handler first strips code via two `re.sub` passes over the raw
content: pattern one is three backticks, `.+` (greedy, `.` does not match
a newline) and three backticks; pattern two is one backtick, `[^` `]+`
(greedy) and one backtick.  It then runs `re.findall` for a mention token
immediately followed by `++` or `--`, aggregates `+1`/`-1` per resolved
guild member into a `defaultdict(int)`, pops the author's entry, and
either stops (`if has_self_vote or not aggregated_votes`) or hands the
tally to `user_votes.add_votes` and reacts to the message. -/

/-- The backtick character (96). -/
def btick : Char := Char.ofNat 96

/-- The three-backtick fence delimiter, as a character list. -/
def fenceDelim : List Char := [btick, btick, btick]

/-- True when the list starts with three backticks, the literal fence
delimiter of the first substitution pattern. -/
def isFence : List Char → Bool
  | a :: b :: c :: _ => a = btick && b = btick && c = btick
  | _ => false

/-- Backtracking search for the greedy close of the fence pattern: after
the opening fence, `.+` first consumes as much as it can and then gives
characters back until the closing fence matches, so the accepted split is
the largest `k` with no newline among the first `k` characters and a
fence right after them.  Returns the remainder after the whole match. -/
def fenceCloseFrom (r : List Char) : Nat → Option (List Char)
  | 0 => none
  | k + 1 =>
    if ((r.take (k + 1)).all fun c => c != '\n') && isFence (r.drop (k + 1)) then
      some (r.drop (k + 1 + 3))
    else fenceCloseFrom r k

/-- Greedy close search starting from the longest conceivable `.+`. -/
def fenceClose (r : List Char) : Option (List Char) := fenceCloseFrom r r.length

theorem fenceCloseFrom_length : ∀ (n : Nat) (r rem : List Char),
    fenceCloseFrom r n = some rem → rem.length ≤ r.length := by
  intro n
  induction n with
  | zero => intro r rem h; simp [fenceCloseFrom] at h
  | succ k ih =>
    intro r rem h
    rw [fenceCloseFrom] at h
    split at h
    · simp only [Option.some.injEq] at h
      subst h
      simp [List.length_drop]
    · exact ih r rem h

/-- Embedding of `re.sub` with the fence pattern: scan left to right, at
each position match the pattern if possible (consuming it and replacing it
with nothing) and otherwise emit the character and move on.  The `fuel`
argument only drives structural recursion: every step consumes at least
one character (see `fenceCloseFrom_length`), so fuel = input length never
runs out and the zero-fuel arm is unreachable. -/
def stripFencedGo : Nat → List Char → List Char
  | _, [] => []
  | 0, s => s
  | fuel + 1, a :: b :: c :: rest =>
    if a = btick ∧ b = btick ∧ c = btick then
      match fenceClose rest with
      | some rem => stripFencedGo fuel rem
      | none => a :: stripFencedGo fuel (b :: c :: rest)
    else a :: stripFencedGo fuel (b :: c :: rest)
  | fuel + 1, a :: rest => a :: stripFencedGo fuel rest

/-- The fence substitution over a whole text. -/
def stripFenced (s : List Char) : List Char := stripFencedGo s.length s

/-- True when three consecutive backticks occur somewhere in the list:
the only shape on which the fence pattern can open, so its absence makes
the fence substitution the identity. -/
def hasTripleTick : List Char → Bool
  | a :: b :: c :: rest =>
    (a = btick && b = btick && c = btick) || hasTripleTick (b :: c :: rest)
  | _ => false

/-- True when two adjacent backticks occur somewhere in the list. -/
def hasAdjTicks : List Char → Bool
  | a :: b :: rest => (a = btick && b = btick) || hasAdjTicks (b :: rest)
  | _ => false

/-- Matching of the inline pattern at a position right after an opening
backtick: `[^` `]+` greedily takes the maximal run of non-backticks, which
must be nonempty and followed by a closing backtick.  Returns the
remainder after the whole match. -/
def inlineClose (cs : List Char) : Option (List Char) :=
  match cs.drop (cs.takeWhile fun x => x != btick).length with
  | d :: rest =>
    if (cs.takeWhile fun x => x != btick).isEmpty = false ∧ d = btick then some rest
    else none
  | [] => none

theorem inlineClose_length {cs rest : List Char} (h : inlineClose cs = some rest) :
    rest.length < cs.length := by
  unfold inlineClose at h
  split at h
  · next d rest2 heq =>
    split at h
    · simp only [Option.some.injEq] at h
      subst h
      have hlen : (cs.drop (cs.takeWhile fun x => x != btick).length).length
          = rest2.length + 1 := by rw [heq]; simp
      rw [List.length_drop] at hlen
      have htw : (cs.takeWhile fun x => x != btick).length ≤ cs.length :=
        (List.takeWhile_prefix _).length_le
      omega
    · exact absurd h (by simp)
  · exact absurd h (by simp)

/-- Embedding of `re.sub` with the inline-code pattern.  As with
`stripFencedGo`, fuel = input length suffices (`inlineClose_length`). -/
def stripInlineGo : Nat → List Char → List Char
  | _, [] => []
  | 0, s => s
  | fuel + 1, c :: cs =>
    if c = btick then
      match inlineClose cs with
      | some rest => stripInlineGo fuel rest
      | none => c :: stripInlineGo fuel cs
    else c :: stripInlineGo fuel cs

/-- The inline-code substitution over a whole text. -/
def stripInline (s : List Char) : List Char := stripInlineGo s.length s

/-- The `clean_content` computed at the top of `vote_handler`: the fenced
substitution runs first (as the inner `re.sub`), the inline one second. -/
def cleanContent (content : List Char) : List Char :=
  stripInline (stripFenced content)

/-- Consumes the optional `!` of the mention pattern. -/
def skipBang : List Char → List Char
  | '!' :: r => r
  | r => r

/-- Numeric value of a digit run, as Python's `int` on the captured group. -/
def natOfDigits (ds : List Char) : Nat :=
  ds.foldl (fun a c => 10 * a + (c.toNat - 48)) 0

/-- Matching of the vote pattern at one position: `<`, `@`, optional `!`,
a nonempty greedy digit run, `>`, then `++` (worth `+1`) or `--` (worth
`-1`).  Returns the captured id, the point value, and the remainder. -/
def tryVote : List Char → Option (Nat × Int × List Char)
  | c1 :: c2 :: rest =>
    if c1 = '<' ∧ c2 = '@' then
      if ((skipBang rest).takeWhile Char.isDigit).isEmpty then none
      else
        match (skipBang rest).drop ((skipBang rest).takeWhile Char.isDigit).length with
        | e1 :: e2 :: e3 :: r =>
          if e1 = '>' ∧ e2 = '+' ∧ e3 = '+' then
            some (natOfDigits ((skipBang rest).takeWhile Char.isDigit), 1, r)
          else if e1 = '>' ∧ e2 = '-' ∧ e3 = '-' then
            some (natOfDigits ((skipBang rest).takeWhile Char.isDigit), -1, r)
          else none
        | _ => none
    else none
  | _ => none

theorem skipBang_length (r : List Char) : (skipBang r).length ≤ r.length := by
  unfold skipBang
  split <;> simp

theorem dropDigits_length {rest r : List Char} {e1 e2 e3 : Char}
    (heq : (skipBang rest).drop ((skipBang rest).takeWhile Char.isDigit).length
      = e1 :: e2 :: e3 :: r) : r.length + 3 ≤ rest.length := by
  have hsb := skipBang_length rest
  have hlen : ((skipBang rest).drop
      ((skipBang rest).takeWhile Char.isDigit).length).length = r.length + 3 := by
    rw [heq]; simp
  rw [List.length_drop] at hlen
  omega

theorem tryVote_length {s r : List Char} {n : Nat} {d : Int}
    (h : tryVote s = some (n, d, r)) : r.length < s.length := by
  unfold tryVote at h
  split at h
  · next c1 c2 rest =>
    split at h
    · split at h
      · exact absurd h (by simp)
      · split at h
        · next e1 e2 e3 r' heq =>
          have hd := dropDigits_length heq
          split at h
          · simp only [Option.some.injEq, Prod.mk.injEq] at h
            obtain ⟨-, -, hr⟩ := h
            subst hr
            simp only [List.length_cons]
            omega
          · split at h
            · simp only [Option.some.injEq, Prod.mk.injEq] at h
              obtain ⟨-, -, hr⟩ := h
              subst hr
              simp only [List.length_cons]
              omega
            · exact absurd h (by simp)
        · exact absurd h (by simp)
    · exact absurd h (by simp)
  · exact absurd h (by simp)

/-- Embedding of `re.findall` with the vote pattern: scan left to right,
collecting each non-overlapping match and resuming after it.  As above,
fuel = input length suffices (`tryVote_length`). -/
def scanVotesGo : Nat → List Char → List (Nat × Int)
  | _, [] => []
  | 0, _ => []
  | fuel + 1, c :: cs =>
    match tryVote (c :: cs) with
    | some (n, d, r) => (n, d) :: scanVotesGo fuel r
    | none => scanVotesGo fuel cs

/-- All vote-pattern matches of a text, in order. -/
def scanVotes (s : List Char) : List (Nat × Int) := scanVotesGo s.length s

/-- The `aggregated_votes` dict: keys are `guild.get_member` results
(`some` member id, or `none` for an unresolved mention), in insertion
order as a Python dict keeps them. -/
abbrev Tally := List (Option Nat × Int)

/-- Python dict lookup on the tally (keys are unique in a dict, so the
first occurrence is the entry). -/
def tallyLookup : Tally → Option Nat → Option Int
  | [], _ => none
  | p :: rest, k => if p.1 = k then some p.2 else tallyLookup rest k

/-- Python dict key-membership test on the tally. -/
def hasKey : Tally → Option Nat → Bool
  | [], _ => false
  | p :: rest, k => p.1 == k || hasKey rest k

/-- Lookup with the `defaultdict(int)` default. -/
def tallyVal (t : Tally) (k : Option Nat) : Int :=
  (tallyLookup t k).getD 0

/-- One `aggregated_votes[member] += point_value[action]` step on the
`defaultdict(int)`: update in place when the key exists, else append the
key with the fresh default plus the delta. -/
def addVote (t : Tally) (k : Option Nat) (d : Int) : Tally :=
  if hasKey t k then
    t.map fun p => if p.1 == k then (p.1, p.2 + d) else p
  else t ++ [(k, d)]

/-- Embedding of `guild.get_member`: `some` id for an id in the guild
member list, `none` otherwise. -/
def resolveMember (members : List Nat) (i : Nat) : Option Nat :=
  if members.contains i then some i else none

/-- The aggregation loop over the `re.findall` matches. -/
def buildTally (resolve : Nat → Option Nat) (tokens : List (Nat × Int)) : Tally :=
  tokens.foldl (fun t nd => addVote t (resolve nd.1) nd.2) []

/-- Embedding of `aggregated_votes.pop(message.author, None)`: the popped
value (or `None`) paired with the dict without that key.  Discord models
compare members by id, so the author matches exactly the key
`some authorId`. -/
def popSelf (t : Tally) (k : Option Nat) : Option Int × Tally :=
  (tallyLookup t k, t.filter fun p => !(p.1 == k))

/-- Python truthiness of `has_self_vote`: `None` and `0` are falsy. -/
def truthyInt : Option Int → Bool
  | none => false
  | some v => v != 0

/-- Embedding of the list comprehension in `user_votes.add_votes`,
projected to the per-row `(voted_user_id, points_delta)` data: entries
with a zero score are skipped before the row tuple is built; a surviving
`None` key (an unresolved mention) then fails on `.id` with an
`AttributeError`, which propagates out of `add_votes` before any row is
persisted. -/
def add_votes_rows : Tally → Except String (List (Nat × Int))
  | [] => .ok []
  | p :: rest =>
    if p.2 != 0 then
      match p.1 with
      | some uid => (add_votes_rows rest).map fun rs => (uid, p.2) :: rs
      | none => .error "AttributeError: NoneType object has no attribute id"
    else add_votes_rows rest

/-- Observable outcome of one `vote_handler` run: the tally handed to
`user_votes.add_votes` (or `none` when the Store helper is never called)
and whether the acknowledgement reaction was applied.  In the source
`await user_votes.add_votes(...)` precedes `message.add_reaction`, so the
reaction happens only when the `add_votes` comprehension completes. -/
structure VoteOutcome where
  storeTally : Option Tally
  reacted : Bool
deriving DecidableEq

/-- Embedding of `Sintia.vote_handler`, parameterised by the author's bot
flag and id, the guild member ids, and the raw message content.  When the
gate passes, the tally is handed to `add_votes`; if its comprehension
raises (`add_votes_rows` is an error) the exception propagates and the
`add_reaction` line is never reached. -/
def vote_handler (authorBot : Bool) (authorId : Nat) (members : List Nat)
    (content : List Char) : VoteOutcome :=
  if authorBot then ⟨none, false⟩
  else
    let tokens := scanVotes (cleanContent content)
    let tally := buildTally (resolveMember members) tokens
    let p := popSelf tally (some authorId)
    if truthyInt p.1 || p.2.isEmpty then ⟨none, false⟩
    else
      match add_votes_rows p.2 with
      | .ok _ => ⟨some p.2, true⟩
      | .error _ => ⟨some p.2, false⟩

/-- The intermediate state of `vote_handler` right after the
`aggregated_votes.pop(message.author, None)` line: the popped author entry
and the remaining tally. -/
def voteGate (authorId : Nat) (members : List Nat) (content : List Char) :
    Option Int × Tally :=
  popSelf (buildTally (resolveMember members) (scanVotes (cleanContent content)))
    (some authorId)

/-! ## Helper lemmas -/

theorem applyRecs_none (u : Int) (a : String) (s : Scope) :
    ∀ (ops : List RecOp) (st : RLState),
      (∀ op ∈ ops, ¬(op.user = u ∧ op.action = a ∧ op.scope = s)) →
      st (a, s) u = none → applyRecs st ops (a, s) u = none := by
  intro ops
  induction ops with
  | nil => intro st _ h0; simpa [applyRecs] using h0
  | cons op rest ih =>
    intro st hops h0
    rw [applyRecs]
    apply ih
    · intro op' hop'
      exact hops op' (List.mem_cons_of_mem _ hop')
    · have hop := hops op (List.mem_cons_self _ _)
      simp only [record_action]
      split
      · next hk =>
        have ha := congrArg Prod.fst hk
        have hs := congrArg Prod.snd hk
        simp only at ha hs
        have hu : ¬(u = op.user) := fun hu => hop ⟨hu.symm, ha.symm, hs.symm⟩
        dsimp only
        rw [if_neg hu, ← ha, ← hs]
        exact h0
      · exact h0

/-- A concrete rate-limit configuration for witnesses: only `quote.add`
has a duration. -/
def cfg0 : RLConfig := fun x => if x = "quote.add" then some 60 else none

/-- A concrete configuration with no durations at all. -/
def cfgNone : RLConfig := fun _ => none

/-! ## Claims about the rate limiter -/

/-- Claim C3: for a configured action, `is_rate_limited` is true iff an
entry exists and `now` minus its timestamp is under the duration; it is
false in any state built only from `record_action` calls that never
target `(u, a, s)`; and right after `record_action` at time `t` it
evaluates exactly to `now - t < d`, so it turns false once the duration
has elapsed since the last recording. -/
theorem is_rate_limited_spec (cfg : RLConfig) (st : RLState) (now u : Int)
    (a : String) (s : Scope) (d : Int) (hcfg : cfg a = some d) :
    (is_rate_limited cfg st now u a s = .ok true ↔
      ∃ ts, st (a, s) u = some ts ∧ now - ts < d)
    ∧ (∀ ops : List RecOp,
        (∀ op ∈ ops, ¬(op.user = u ∧ op.action = a ∧ op.scope = s)) →
        is_rate_limited cfg (applyRecs emptyRL ops) now u a s = .ok false)
    ∧ (∀ (st2 : RLState) (t : Int),
        is_rate_limited cfg (record_action st2 t u a s) now u a s
          = .ok (decide (now - t < d))) := by
  refine ⟨?_, ?_, ?_⟩
  · cases h : st (a, s) u with
    | none =>
      simp only [is_rate_limited, h]
      constructor
      · intro hc; exact absurd hc (by simp)
      · rintro ⟨ts, hts, -⟩; exact absurd hts (by simp)
    | some ts =>
      simp only [is_rate_limited, h, hcfg]
      constructor
      · intro hc
        simp only [Except.ok.injEq, decide_eq_true_eq] at hc
        exact ⟨ts, rfl, by omega⟩
      · rintro ⟨ts', hts', hlt⟩
        simp only [Option.some.injEq] at hts'
        subst hts'
        simp only [Except.ok.injEq, decide_eq_true_eq]
        omega
  · intro ops hops
    have hn := applyRecs_none u a s ops emptyRL hops rfl
    simp [is_rate_limited, hn]
  · intro st2 t
    have hentry : record_action st2 t u a s (a, s) u = some t := by
      simp [record_action]
    simp only [is_rate_limited, hentry, hcfg]
    congr 1
    exact decide_eq_decide.mpr (by omega)

/-- Witness for C3 at a concrete configuration, user and time. -/
theorem is_rate_limited_spec_witness :
    cfg0 "quote.add" = some 60
    ∧ ((is_rate_limited cfg0 emptyRL 100 1 "quote.add" [] = .ok true ↔
        ∃ ts, emptyRL ("quote.add", []) 1 = some ts ∧ 100 - ts < 60)
      ∧ (∀ ops : List RecOp,
          (∀ op ∈ ops, ¬(op.user = 1 ∧ op.action = "quote.add" ∧ op.scope = [])) →
          is_rate_limited cfg0 (applyRecs emptyRL ops) 100 1 "quote.add" [] = .ok false)
      ∧ (∀ (st2 : RLState) (t : Int),
          is_rate_limited cfg0 (record_action st2 t 1 "quote.add" []) 100 1 "quote.add" []
            = .ok (decide (100 - t < 60)))) :=
  ⟨rfl, is_rate_limited_spec cfg0 emptyRL 100 1 "quote.add" [] 60 rfl⟩

/-- Claim C4 counterexample: for the action `"vote"` with no configured
duration, after `record_action` the lookup `getint` yields `None`, so
`is_rate_limited` raises a `TypeError` instead of returning `False`. -/
theorem unconfigured_action_counterexample :
    is_rate_limited cfgNone (record_action emptyRL 0 1 "vote" []) 5 1 "vote" [] ≠ .ok false := by
  have hval : is_rate_limited cfgNone (record_action emptyRL 0 1 "vote" []) 5 1 "vote" []
      = .error "TypeError: timedelta seconds component is NoneType" := rfl
  rw [hval]
  intro hcontra
  exact Except.noConfusion hcontra

/-- Claim C4 as amended: with no configured duration the call returns
`False` only while the user has no entry; once `record_action` has run for
that `(action, scope)`, the call raises a `TypeError`
(`timedelta(seconds=None)`) rather than returning `False`. -/
theorem unconfigured_action_behavior (cfg : RLConfig) (st : RLState) (now u : Int)
    (a : String) (s : Scope) (hcfg : cfg a = none) :
    (st (a, s) u = none → is_rate_limited cfg st now u a s = .ok false)
    ∧ (∀ t : Int, ∃ e, is_rate_limited cfg (record_action st t u a s) now u a s = .error e) := by
  constructor
  · intro h
    simp [is_rate_limited, h]
  · intro t
    have hentry : record_action st t u a s (a, s) u = some t := by
      simp [record_action]
    refine ⟨"TypeError: timedelta seconds component is NoneType", ?_⟩
    simp [is_rate_limited, hentry, hcfg]

/-- Witness for the amended C4 at a concrete state. -/
theorem unconfigured_action_behavior_witness :
    cfgNone "vote" = none
    ∧ ((emptyRL ("vote", []) 1 = none →
        is_rate_limited cfgNone emptyRL 5 1 "vote" [] = .ok false)
      ∧ (∀ t : Int, ∃ e,
          is_rate_limited cfgNone (record_action emptyRL t 1 "vote" []) 5 1 "vote" [] = .error e)) :=
  ⟨rfl, unconfigured_action_behavior cfgNone emptyRL 5 1 "vote" [] rfl⟩

/-- Claim C7: recording an action for one scope tuple leaves
`is_rate_limited` unchanged for every other scope tuple. -/
theorem record_action_scope_independent (cfg : RLConfig) (st : RLState)
    (now t u : Int) (a : String) (s s' : Scope) (h : s' ≠ s) :
    is_rate_limited cfg (record_action st now u a s) t u a s'
      = is_rate_limited cfg st t u a s' := by
  have hk : ((a, s') : String × Scope) ≠ (a, s) := by
    intro he
    exact h (congrArg Prod.snd he)
  simp [is_rate_limited, record_action, hk]

/-- Witness for C7: a vote recorded for quote 5 does not affect the
rate-limit check for quote 6. -/
theorem record_action_scope_independent_witness :
    ([Sum.inr 6] : Scope) ≠ [Sum.inr 5]
    ∧ is_rate_limited cfg0 (record_action emptyRL 0 1 "quote.vote" [Sum.inr 5])
        0 1 "quote.vote" [Sum.inr 6]
      = is_rate_limited cfg0 emptyRL 0 1 "quote.vote" [Sum.inr 6] :=
  ⟨by decide,
    record_action_scope_independent cfg0 emptyRL 0 0 1 "quote.vote"
      [Sum.inr 5] [Sum.inr 6] (by decide)⟩

/-! ## Claim about GenUser identity -/

/-- Claim C9 evaluated at the failing input: two `GenUser` wrappers built
from the same Discord identity (id 42) in two constructions compare
unequal under Python's default identity equality, and their default hashes
differ, even though the wrapped identity is identical. -/
theorem genuser_identity_equality :
    genUserPyEq (GenUser.fromDiscord 1 du42) (GenUser.fromDiscord 2 du42) = false
    ∧ genUserPyHash (GenUser.fromDiscord 1 du42) ≠ genUserPyHash (GenUser.fromDiscord 2 du42)
    ∧ (GenUser.fromDiscord 1 du42).id = (GenUser.fromDiscord 2 du42).id := by
  decide

/-! ## Claims about command dispatch -/

/-- Claim C8 counterexample: on content containing a tab before any space,
the code partitions on `' '` only, finds no registered trigger and invokes
no handler, whereas splitting on the first whitespace (the claim's words,
modelled by `specDispatch`) would invoke the hello handler. -/
theorem dispatch_whitespace_counterexample :
    process_discord_message ("!hello\tx".data) = none
    ∧ specDispatch ("!hello\tx".data) = some (Handler.greet, "x".data) := by
  constructor <;> rfl

/-- Claim C8 as amended: dispatch splits the content on the first space
character (`str.partition(' ')`); when the resulting trigger is not a
registered key no handler is invoked, and the input `"!hello"` invokes the
hello handler with an empty argument string. -/
theorem process_discord_message_spec (c t arg : List Char)
    (hp : pyPartitionSpace c = (t, arg))
    (hmiss : ∀ q ∈ commands, q.1.data ≠ t) :
    process_discord_message c = none
    ∧ process_discord_message ("!hello".data) = some (Handler.greet, []) := by
  constructor
  · have hfind : commands.find? (fun q => q.1.data == (pyPartitionSpace c).1) = none := by
      rw [List.find?_eq_none]
      intro q hq
      simp only [hp]
      simpa using hmiss q hq
    simp [process_discord_message, hfind]
  · rfl

/-- Witness for the amended C8 at the spec's own example input
`"!unknownxyz foo"`. -/
theorem process_discord_message_spec_witness :
    pyPartitionSpace ("!unknownxyz foo".data) = ("!unknownxyz".data, "foo".data)
    ∧ (∀ q ∈ commands, q.1.data ≠ "!unknownxyz".data)
    ∧ (process_discord_message ("!unknownxyz foo".data) = none
      ∧ process_discord_message ("!hello".data) = some (Handler.greet, [])) :=
  ⟨by decide, by decide,
    process_discord_message_spec ("!unknownxyz foo".data) ("!unknownxyz".data)
      ("foo".data) (by decide) (by decide)⟩

/-! ## Helper lemmas for the tally -/

theorem hasKey_false_lookup {t : Tally} {k : Option Nat} (h : hasKey t k = false) :
    tallyLookup t k = none := by
  induction t with
  | nil => rfl
  | cons p rest ih =>
    simp only [hasKey, Bool.or_eq_false_iff, beq_eq_false_iff_ne, ne_eq] at h
    simp only [tallyLookup, if_neg h.1]
    exact ih h.2

theorem hasKey_true_lookup {t : Tally} {k : Option Nat} (h : hasKey t k = true) :
    ∃ v, tallyLookup t k = some v := by
  induction t with
  | nil => simp [hasKey] at h
  | cons p rest ih =>
    by_cases hpk : p.1 = k
    · exact ⟨p.2, by simp [tallyLookup, hpk]⟩
    · simp only [hasKey, Bool.or_eq_true, beq_iff_eq] at h
      rcases h with h | h
      · exact absurd h hpk
      · obtain ⟨v, hv⟩ := ih h
        exact ⟨v, by simp [tallyLookup, hpk, hv]⟩

theorem tallyLookup_map_upd (k' k : Option Nat) (d : Int) :
    ∀ t : Tally,
      tallyLookup (t.map fun p => if p.1 == k' then (p.1, p.2 + d) else p) k
        = (tallyLookup t k).map fun v => if k' = k then v + d else v := by
  intro t
  induction t with
  | nil => rfl
  | cons p rest ih =>
    simp only [List.map_cons]
    by_cases hpk' : p.1 = k'
    · rw [if_pos (beq_iff_eq.mpr hpk')]
      by_cases hpk : p.1 = k
      · have hkk : k' = k := hpk'.symm.trans hpk
        simp only [tallyLookup]
        rw [if_pos hpk, if_pos hpk]
        simp [hkk]
      · have hkk : ¬(k' = k) := fun he => hpk (hpk'.trans he)
        simp only [tallyLookup]
        rw [if_neg hpk, if_neg hpk, ih]
    · rw [if_neg (by simpa using hpk')]
      by_cases hpk : p.1 = k
      · have hkk : ¬(k' = k) := fun he => hpk' (hpk.trans he.symm)
        simp only [tallyLookup]
        rw [if_pos hpk, if_pos hpk]
        simp [hkk]
      · simp only [tallyLookup]
        rw [if_neg hpk, if_neg hpk, ih]

theorem tallyLookup_append_single (k' k : Option Nat) (d : Int) :
    ∀ t : Tally,
      tallyLookup (t ++ [(k', d)]) k
        = match tallyLookup t k with
          | some v => some v
          | none => if k' = k then some d else none := by
  intro t
  induction t with
  | nil => rfl
  | cons p rest ih =>
    by_cases hpk : p.1 = k
    · simp [tallyLookup, hpk]
    · simp [tallyLookup, hpk, ih]

theorem addVote_val (t : Tally) (k' k : Option Nat) (d : Int) :
    tallyVal (addVote t k' d) k = tallyVal t k + if k' = k then d else 0 := by
  unfold addVote
  by_cases hk : hasKey t k'
  · rw [if_pos hk]
    unfold tallyVal
    rw [tallyLookup_map_upd]
    cases hlk : tallyLookup t k with
    | none =>
      have hkk : ¬(k' = k) := by
        intro he
        subst he
        obtain ⟨v, hv⟩ := hasKey_true_lookup hk
        rw [hv] at hlk
        exact Option.noConfusion hlk
      simp [hkk]
    | some v =>
      by_cases hkk : k' = k <;> simp [hkk]
  · rw [if_neg hk]
    unfold tallyVal
    rw [tallyLookup_append_single]
    cases hlk : tallyLookup t k with
    | none =>
      by_cases hkk : k' = k <;> simp [hkk]
    | some v =>
      have hkk : ¬(k' = k) := by
        intro he
        subst he
        rw [hasKey_false_lookup (Bool.not_eq_true _ ▸ hk)] at hlk
        exact Option.noConfusion hlk
      simp [hkk]

theorem map_upd_keys (k' : Option Nat) (d : Int) :
    ∀ t : Tally,
      (t.map fun p => if p.1 == k' then (p.1, p.2 + d) else p).map Prod.fst
        = t.map Prod.fst := by
  intro t
  induction t with
  | nil => rfl
  | cons p rest ih =>
    simp only [List.map_cons]
    rw [ih]
    congr 1
    by_cases hpk' : p.1 = k'
    · rw [if_pos (beq_iff_eq.mpr hpk')]
    · rw [if_neg (by simpa using hpk')]

theorem hasKey_iff_mem (t : Tally) (k : Option Nat) :
    hasKey t k = true ↔ k ∈ t.map Prod.fst := by
  induction t with
  | nil => simp [hasKey]
  | cons p rest ih =>
    simp only [hasKey, Bool.or_eq_true, beq_iff_eq, List.map_cons, List.mem_cons, ih]
    constructor
    · rintro (h | h)
      · exact Or.inl h.symm
      · exact Or.inr h
    · rintro (h | h)
      · exact Or.inl h.symm
      · exact Or.inr h

theorem addVote_keys (t : Tally) (k' : Option Nat) (d : Int) :
    (addVote t k' d).map Prod.fst
      = if hasKey t k' = true then t.map Prod.fst else t.map Prod.fst ++ [k'] := by
  unfold addVote
  by_cases hk : hasKey t k'
  · rw [if_pos hk, if_pos hk, map_upd_keys]
  · rw [if_neg hk, if_neg hk]
    simp

theorem foldl_addVote_nodup (resolve : Nat → Option Nat) :
    ∀ (tokens : List (Nat × Int)) (t : Tally), (t.map Prod.fst).Nodup →
      ((tokens.foldl (fun t nd => addVote t (resolve nd.1) nd.2) t).map Prod.fst).Nodup := by
  intro tokens
  induction tokens with
  | nil => intro t h; simpa using h
  | cons nd rest ih =>
    intro t h
    rw [List.foldl_cons]
    apply ih
    rw [addVote_keys]
    by_cases hk : hasKey t (resolve nd.1) = true
    · simpa [hk] using h
    · rw [if_neg hk]
      rw [List.nodup_append]
      refine ⟨h, List.nodup_singleton _, ?_⟩
      intro x hx hx'
      simp only [List.mem_singleton] at hx'
      subst hx'
      rw [← hasKey_iff_mem] at hx
      exact hk hx

theorem foldl_addVote_val (resolve : Nat → Option Nat) (k : Option Nat) :
    ∀ (tokens : List (Nat × Int)) (t : Tally),
      tallyVal (tokens.foldl (fun t nd => addVote t (resolve nd.1) nd.2) t) k
        = tallyVal t k
          + ((tokens.map fun nd => if resolve nd.1 = k then nd.2 else 0).sum) := by
  intro tokens
  induction tokens with
  | nil => intro t; simp
  | cons nd rest ih =>
    intro t
    rw [List.foldl_cons, ih, addVote_val]
    simp only [List.map_cons, List.sum_cons]
    ring

theorem add_votes_rows_zero :
    ∀ t : Tally, (∀ q ∈ t, q.2 = 0) → add_votes_rows t = .ok [] := by
  intro t
  induction t with
  | nil => intro _; rfl
  | cons p rest ih =>
    intro h
    have hp : p.2 = 0 := h p (List.mem_cons_self _ _)
    rw [add_votes_rows]
    rw [if_neg (by simp [hp])]
    exact ih fun q hq => h q (List.mem_cons_of_mem _ hq)

theorem vote_handler_unfold (authorId : Nat) (members : List Nat) (content : List Char) :
    vote_handler false authorId members content
      = if truthyInt (voteGate authorId members content).1
          || (voteGate authorId members content).2.isEmpty
        then ⟨none, false⟩
        else
          match add_votes_rows (voteGate authorId members content).2 with
          | .ok _ => ⟨some (voteGate authorId members content).2, true⟩
          | .error _ => ⟨some (voteGate authorId members content).2, false⟩ := rfl

/-! ## Claims about vote aggregation -/

/-- Claim C6: for every message, the aggregated tally maps each target to
the arithmetic sum of the `+1`/`-1` contributions of the vote tokens that
resolve to it, and holds a single entry per target (its keys are
duplicate-free), so repeated votes for one target net out rather than
producing separate events. -/
theorem vote_tally_nets_contributions (members : List Nat) (content : List Char)
    (k : Option Nat) :
    tallyVal (buildTally (resolveMember members) (scanVotes (cleanContent content))) k
      = ((scanVotes (cleanContent content)).map
          fun nd => if resolveMember members nd.1 = k then nd.2 else 0).sum
    ∧ ((buildTally (resolveMember members)
        (scanVotes (cleanContent content))).map Prod.fst).Nodup := by
  constructor
  · unfold buildTally
    rw [foldl_addVote_val]
    simp [tallyVal, tallyLookup]
  · exact foldl_addVote_nodup _ _ [] (by simp)

/-- Claim C2 as amended: `vote_handler` pops the author's own entry from
the tally; it performs no further action when that popped entry is truthy
(a self-vote with nonzero net) or when the tally is empty after removal.
Only when the author's entry was absent or netted to zero is the remaining
tally handed to the Store, and the acknowledgement reaction follows only
if the `add_votes` comprehension completes: a tally entry whose mention
did not resolve to a guild member and whose net is nonzero raises an
`AttributeError` inside `add_votes`, and the reaction is then never
applied. -/
theorem vote_handler_selfvote_gate (authorId : Nat) (members : List Nat)
    (content : List Char) :
    (truthyInt (voteGate authorId members content).1 = true →
      vote_handler false authorId members content = ⟨none, false⟩)
    ∧ ((voteGate authorId members content).2 = [] →
      vote_handler false authorId members content = ⟨none, false⟩)
    ∧ (∀ rs, truthyInt (voteGate authorId members content).1 = false →
      (voteGate authorId members content).2 ≠ [] →
      add_votes_rows (voteGate authorId members content).2 = .ok rs →
      vote_handler false authorId members content
        = ⟨some (voteGate authorId members content).2, true⟩)
    ∧ (∀ e, truthyInt (voteGate authorId members content).1 = false →
      (voteGate authorId members content).2 ≠ [] →
      add_votes_rows (voteGate authorId members content).2 = .error e →
      vote_handler false authorId members content
        = ⟨some (voteGate authorId members content).2, false⟩) := by
  refine ⟨?_, ?_, ?_, ?_⟩
  · intro h
    rw [vote_handler_unfold, h]
    simp
  · intro h
    rw [vote_handler_unfold, h]
    simp
  · intro rs h1 h2 hrows
    have h3 : (voteGate authorId members content).2.isEmpty = false := by
      cases hc : (voteGate authorId members content).2 with
      | nil => exact absurd hc h2
      | cons a l => rfl
    rw [vote_handler_unfold, h1, h3]
    simp [hrows]
  · intro e h1 h2 hrows
    have h3 : (voteGate authorId members content).2.isEmpty = false := by
      cases hc : (voteGate authorId members content).2 with
      | nil => exact absurd hc h2
      | cons a l => rfl
    rw [vote_handler_unfold, h1, h3]
    simp [hrows]

/-- Witness for the amended C2: a message with no self-vote and two
resolved net-nonzero targets reaches the Store with a reaction. -/
theorem vote_handler_selfvote_gate_witness :
    truthyInt (voteGate 9 [5, 8] ("<@5>++ <@8>--".data)).1 = false
    ∧ (voteGate 9 [5, 8] ("<@5>++ <@8>--".data)).2 ≠ []
    ∧ add_votes_rows (voteGate 9 [5, 8] ("<@5>++ <@8>--".data)).2 = .ok [(5, 1), (8, -1)]
    ∧ vote_handler false 9 [5, 8] ("<@5>++ <@8>--".data)
        = ⟨some (voteGate 9 [5, 8] ("<@5>++ <@8>--".data)).2, true⟩ :=
  ⟨by decide, by decide, rfl,
    (vote_handler_selfvote_gate 9 [5, 8] ("<@5>++ <@8>--".data)).2.2.1 [(5, 1), (8, -1)]
      (by decide) (by decide) rfl⟩

/-- Claim C2 counterexample: author 9 votes for themself and for member 5
in one message; the self-vote nets to `+1`, the remaining tally for member
5 is nonempty with a nonzero net, yet the handler performs no Store call
and no reaction, contradicting the claim that the other targets' tally is
still handed to the Store. -/
theorem selfvote_suppression_counterexample :
    tallyVal (buildTally (resolveMember [9, 5])
        (scanVotes (cleanContent ("<@9>++ <@5>++".data)))) (some 9) = 1
    ∧ (voteGate 9 [9, 5] ("<@9>++ <@5>++".data)).2 = [(some 5, 1)]
    ∧ vote_handler false 9 [9, 5] ("<@9>++ <@5>++".data) = ⟨none, false⟩ := by
  decide

/-- Claim C10 as amended: when the author's popped entry is absent or nets
to zero and the remaining tally is nonempty but all-zero, `vote_handler`
still calls the Store with that tally and reacts, while the `add_votes`
comprehension filters the zero-delta entries so no rows are persisted.
(The amendment adds the condition on the author's entry: a nonzero-net
self-vote makes the handler return before the Store call.) -/
theorem zero_delta_rows_filtered (authorId : Nat) (members : List Nat)
    (content : List Char)
    (h1 : truthyInt (voteGate authorId members content).1 = false)
    (h2 : (voteGate authorId members content).2 ≠ [])
    (h3 : ∀ q ∈ (voteGate authorId members content).2, q.2 = 0) :
    vote_handler false authorId members content
      = ⟨some (voteGate authorId members content).2, true⟩
    ∧ add_votes_rows (voteGate authorId members content).2 = .ok [] := by
  constructor
  · have hne : (voteGate authorId members content).2.isEmpty = false := by
      cases hc : (voteGate authorId members content).2 with
      | nil => exact absurd hc h2
      | cons a l => rfl
    have hrows := add_votes_rows_zero _ h3
    rw [vote_handler_unfold, h1, hne]
    simp [hrows]
  · exact add_votes_rows_zero _ h3

/-- Witness for the amended C10: `<@5>++ <@5>--` from author 9 leaves a
nonempty all-zero tally, the Store is called with it and the reaction is
applied, and the row comprehension is empty. -/
theorem zero_delta_rows_filtered_witness :
    truthyInt (voteGate 9 [9, 5] ("<@5>++ <@5>--".data)).1 = false
    ∧ (voteGate 9 [9, 5] ("<@5>++ <@5>--".data)).2 ≠ []
    ∧ (∀ q ∈ (voteGate 9 [9, 5] ("<@5>++ <@5>--".data)).2, q.2 = 0)
    ∧ (vote_handler false 9 [9, 5] ("<@5>++ <@5>--".data)
        = ⟨some (voteGate 9 [9, 5] ("<@5>++ <@5>--".data)).2, true⟩
      ∧ add_votes_rows (voteGate 9 [9, 5] ("<@5>++ <@5>--".data)).2 = .ok []) :=
  ⟨by decide, by decide, by decide,
    zero_delta_rows_filtered 9 [9, 5] ("<@5>++ <@5>--".data)
      (by decide) (by decide) (by decide)⟩

/-- Claim C10 counterexample: `<@9>++ <@5>++ <@5>--` from author 9 leaves
a tally that is nonempty and all-zero after the author's entry is removed
(the claim's premise), yet the handler performs no Store call and no
reaction because the popped self-vote nets to `+1`. -/
theorem zero_delta_selfvote_counterexample :
    (voteGate 9 [9, 5] ("<@9>++ <@5>++ <@5>--".data)).2 = [(some 5, 0)]
    ∧ vote_handler false 9 [9, 5] ("<@9>++ <@5>++ <@5>--".data) = ⟨none, false⟩ := by
  decide

/-! ## Helper lemmas for the fence substitution -/

theorem fenceCloseFrom_step (r : List Char) (k : Nat)
    (hf : isFence (r.drop (k + 1)) = false) :
    fenceCloseFrom r (k + 1) = fenceCloseFrom r k := by
  rw [fenceCloseFrom]
  simp [hf]

theorem fenceCloseFrom_hit (r : List Char) (k : Nat)
    (ha : (r.take (k + 1)).all (fun c => c != '\n') = true)
    (hf : isFence (r.drop (k + 1)) = true) :
    fenceCloseFrom r (k + 1) = some (r.drop (k + 1 + 3)) := by
  rw [fenceCloseFrom]
  simp [ha, hf]

theorem fenceClose_fence (x : List Char) (hne : x ≠ [])
    (hnl : ∀ c ∈ x, c ≠ '\n') :
    fenceClose (x ++ fenceDelim) = some [] := by
  have hdrop : ∀ j : Nat, (x ++ fenceDelim).drop (x.length + j) = fenceDelim.drop j := by
    intro j
    rw [← List.drop_drop j x.length (x ++ fenceDelim), List.drop_left]
  have hd3 : (x ++ fenceDelim).drop (x.length + 3) = [] := by rw [hdrop 3]; rfl
  have hf3 : isFence ((x ++ fenceDelim).drop (x.length + 3)) = false := by
    rw [hd3]; rfl
  have hf2 : isFence ((x ++ fenceDelim).drop (x.length + 2)) = false := by
    rw [hdrop 2]; rfl
  have hf1 : isFence ((x ++ fenceDelim).drop (x.length + 1)) = false := by
    rw [hdrop 1]; rfl
  have hf0 : isFence ((x ++ fenceDelim).drop x.length) = true := by
    have h := hdrop 0
    rw [Nat.add_zero] at h
    rw [h]
    rfl
  have htake : ((x ++ fenceDelim).take x.length).all (fun c => c != '\n') = true := by
    rw [List.take_left, List.all_eq_true]
    intro c hc
    simpa using hnl c hc
  obtain ⟨m, hm⟩ : ∃ m, x.length = m + 1 := by
    cases x with
    | nil => exact absurd rfl hne
    | cons a l => exact ⟨l.length, rfl⟩
  have hlen : (x ++ fenceDelim).length = x.length + 3 := by
    rw [List.length_append]
    rfl
  unfold fenceClose
  rw [hlen]
  rw [show x.length + 3 = (x.length + 2) + 1 by omega]
  rw [fenceCloseFrom_step _ _ (by rw [show x.length + 2 + 1 = x.length + 3 by omega]; exact hf3)]
  rw [show x.length + 2 = (x.length + 1) + 1 by omega]
  rw [fenceCloseFrom_step _ _ (by rw [show x.length + 1 + 1 = x.length + 2 by omega]; exact hf2)]
  rw [show x.length + 1 = (x.length + 0) + 1 by omega]
  rw [fenceCloseFrom_step _ _ (by rw [show x.length + 0 + 1 = x.length + 1 by omega]; exact hf1)]
  have hhit : fenceCloseFrom (x ++ fenceDelim) (m + 1)
      = some ((x ++ fenceDelim).drop (m + 1 + 3)) := by
    apply fenceCloseFrom_hit
    · rw [show m + 1 = x.length by omega]
      exact htake
    · rw [show m + 1 = x.length by omega]
      exact hf0
  rw [hm, hhit, show m + 1 + 3 = x.length + 3 by omega, hd3]

theorem stripFenced_fence (x : List Char) (hne : x ≠ [])
    (hnl : ∀ c ∈ x, c ≠ '\n') :
    stripFenced (fenceDelim ++ (x ++ fenceDelim)) = [] := by
  have hc := fenceClose_fence x hne hnl
  have hs : fenceDelim ++ (x ++ fenceDelim)
      = btick :: btick :: btick :: (x ++ fenceDelim) := rfl
  unfold stripFenced
  rw [hs]
  have hlen : (btick :: btick :: btick :: (x ++ fenceDelim)).length
      = ((x ++ fenceDelim).length + 2) + 1 := by
    simp only [List.length_cons]
  rw [hlen]
  rw [stripFencedGo]
  rw [if_pos ⟨rfl, rfl, rfl⟩]
  rw [hc]
  simp only [stripFencedGo]

/-! ## Helper lemmas for the inline substitution -/

theorem stripFencedGo_nil (n : Nat) : stripFencedGo n [] = [] := by
  cases n <;> rfl

theorem stripInlineGo_nil (n : Nat) : stripInlineGo n [] = [] := by
  cases n <;> rfl

theorem stripFencedGo_id : ∀ (n : Nat) (s : List Char),
    hasTripleTick s = false → stripFencedGo n s = s := by
  intro n
  induction n with
  | zero =>
    intro s _
    cases s <;> rfl
  | succ m ih =>
    intro s h
    rcases s with _ | ⟨a, _ | ⟨b, _ | ⟨c, rest⟩⟩⟩
    · rfl
    · simp [stripFencedGo]
    · simp only [stripFencedGo]
      rw [ih [b] rfl]
    · rw [hasTripleTick, Bool.or_eq_false_iff] at h
      obtain ⟨h1, h2⟩ := h
      have hcnd : ¬(a = btick ∧ b = btick ∧ c = btick) := by
        rintro ⟨ha, hb, hc2⟩
        rw [ha, hb, hc2] at h1
        simp at h1
      rw [stripFencedGo, if_neg hcnd, ih _ h2]

theorem tripleTick_of_adj : ∀ s : List Char,
    hasAdjTicks s = false → hasTripleTick s = false := by
  intro s
  induction s with
  | nil => intro _; rfl
  | cons a rest ih =>
    intro h
    rcases rest with _ | ⟨b, _ | ⟨c, rest3⟩⟩
    · rfl
    · rfl
    · rw [hasAdjTicks, Bool.or_eq_false_iff] at h
      obtain ⟨h1, h2⟩ := h
      rw [hasTripleTick, Bool.or_eq_false_iff]
      exact ⟨by rw [h1, Bool.false_and], ih h2⟩

theorem adjTicks_span : ∀ (y : List Char) (a : Char), a ≠ btick →
    (∀ c ∈ y, c ≠ btick) → hasAdjTicks (a :: (y ++ [btick])) = false := by
  intro y
  induction y with
  | nil =>
    intro a ha _
    simp [hasAdjTicks, ha]
  | cons b y' ih =>
    intro a ha hy
    have hb : b ≠ btick := hy b (List.mem_cons_self _ _)
    have ih' := ih b hb fun c hc => hy c (List.mem_cons_of_mem _ hc)
    simp only [List.cons_append]
    rw [hasAdjTicks, Bool.or_eq_false_iff]
    exact ⟨by simp [ha], ih'⟩

theorem noTriple_span (y : List Char) (hne : y ≠ [])
    (hnb : ∀ c ∈ y, c ≠ btick) :
    hasTripleTick (btick :: (y ++ [btick])) = false := by
  apply tripleTick_of_adj
  cases y with
  | nil => exact absurd rfl hne
  | cons a y' =>
    have ha : a ≠ btick := hnb a (List.mem_cons_self _ _)
    simp only [List.cons_append]
    rw [hasAdjTicks, Bool.or_eq_false_iff]
    exact ⟨by simp [ha],
      adjTicks_span y' a ha fun c hc => hnb c (List.mem_cons_of_mem _ hc)⟩

theorem takeWhile_append_tick (y : List Char) (hnb : ∀ c ∈ y, c ≠ btick) :
    (y ++ [btick]).takeWhile (fun x => x != btick) = y := by
  induction y with
  | nil =>
    rw [List.nil_append, List.takeWhile_cons]
    simp
  | cons a y' ih =>
    have ha : a ≠ btick := hnb a (List.mem_cons_self _ _)
    have ih' := ih fun c hc => hnb c (List.mem_cons_of_mem _ hc)
    rw [List.cons_append, List.takeWhile_cons, if_pos (by simpa using ha), ih']

theorem inlineClose_span (y : List Char) (hne : y ≠ [])
    (hnb : ∀ c ∈ y, c ≠ btick) :
    inlineClose (y ++ [btick]) = some [] := by
  have hye : y.isEmpty = false := List.isEmpty_eq_false.mpr hne
  unfold inlineClose
  rw [takeWhile_append_tick y hnb, List.drop_left]
  simp [hye]

theorem stripInline_span (y : List Char) (hne : y ≠ [])
    (hnb : ∀ c ∈ y, c ≠ btick) :
    stripInline (btick :: (y ++ [btick])) = [] := by
  unfold stripInline
  rw [List.length_cons]
  rw [stripInlineGo]
  rw [if_pos rfl]
  rw [inlineClose_span y hne hnb]
  exact stripInlineGo_nil _

/-! ## Claims about code stripping -/

/-- Claim C5 counterexample: the message is one multi-line fenced code
block containing a lone backtick and the vote token `<@1>++`.  The fence
regex cannot match across newlines and the inline regex mis-pairs the
backticks, so the token survives stripping, contributes `+1` to the tally
and even drives a full Store call with a reaction. -/
theorem fenced_vote_counterexample :
    tallyVal (buildTally (resolveMember [1])
        (scanVotes (cleanContent ("```\na ` b\n<@1>++\n```".data)))) (some 1) = 1
    ∧ vote_handler false 2 [1, 2] ("```\na ` b\n<@1>++\n```".data)
        = ⟨some [(some 1, 1)], true⟩ := by
  decide

/-- Claim C5 as amended: the stripping is the code's two regex passes, and
regions they match are deleted before scanning, but the fence pattern
cannot cross a newline, so a vote token inside a multi-line fenced block
can survive and contribute (see the counterexample).  Where the regexes do
match, the exclusion holds; proved here for the two whole-span shapes: a
message that is one single-line fenced block (any nonempty newline-free
body) strips to nothing and yields an empty tally, and a message that is
one inline code span (any nonempty backtick-free body) likewise strips to
nothing and yields an empty tally. -/
theorem code_span_stripping (x : List Char) :
    ((x ≠ []) → (∀ c ∈ x, c ≠ '\n') →
      cleanContent (fenceDelim ++ (x ++ fenceDelim)) = []
      ∧ ∀ members : List Nat,
          buildTally (resolveMember members)
            (scanVotes (cleanContent (fenceDelim ++ (x ++ fenceDelim)))) = [])
    ∧ ((x ≠ []) → (∀ c ∈ x, c ≠ btick) →
      cleanContent (btick :: (x ++ [btick])) = []
      ∧ ∀ members : List Nat,
          buildTally (resolveMember members)
            (scanVotes (cleanContent (btick :: (x ++ [btick])))) = []) := by
  constructor
  · intro hne hnl
    have hclean : cleanContent (fenceDelim ++ (x ++ fenceDelim)) = [] := by
      unfold cleanContent
      rw [stripFenced_fence x hne hnl]
      rfl
    refine ⟨hclean, fun members => ?_⟩
    rw [hclean]
    rfl
  · intro hne hnb
    have hsf : stripFenced (btick :: (x ++ [btick])) = btick :: (x ++ [btick]) := by
      unfold stripFenced
      exact stripFencedGo_id _ _ (noTriple_span x hne hnb)
    have hclean : cleanContent (btick :: (x ++ [btick])) = [] := by
      unfold cleanContent
      rw [hsf, stripInline_span x hne hnb]
    refine ⟨hclean, fun members => ?_⟩
    rw [hclean]
    rfl

/-- Witness for the amended C5 at the concrete span body `"abc"`: both the
single-line fenced form and the inline form strip to nothing. -/
theorem code_span_stripping_witness :
    ("abc".data ≠ []) ∧ (∀ c ∈ "abc".data, c ≠ '\n') ∧ (∀ c ∈ "abc".data, c ≠ btick)
    ∧ (cleanContent (fenceDelim ++ ("abc".data ++ fenceDelim)) = []
      ∧ ∀ members : List Nat,
          buildTally (resolveMember members)
            (scanVotes (cleanContent (fenceDelim ++ ("abc".data ++ fenceDelim)))) = [])
    ∧ (cleanContent (btick :: ("abc".data ++ [btick])) = []
      ∧ ∀ members : List Nat,
          buildTally (resolveMember members)
            (scanVotes (cleanContent (btick :: ("abc".data ++ [btick])))) = []) :=
  ⟨by decide, by decide, by decide,
    (code_span_stripping ("abc".data)).1 (by decide) (by decide),
    (code_span_stripping ("abc".data)).2 (by decide) (by decide)⟩

end Sintia
